import Mathlib

/-!
Verification of `sofascore_scraper.py` (a heuristic label-to-value metric
scraper and dynamic metric-accessor registry) against its natural-language
specification.

The development shallowly embeds the Python source: the BeautifulSoup
document tree is modelled as a rose tree of tagged element nodes with
interleaved text fragments, and the four tree operations the source uses
(`soup.find(predicate)`, `find_next_sibling()`, `.parent`, `get_text`) are
implemented over that tree exactly as BeautifulSoup behaves on it
(document-order depth-first search over element nodes only; next-sibling
lookup skipping text fragments; `get_text(" ")` joins all text fragments
with a space; `get_text(strip=True)` concatenates the stripped fragments).
The handful of regular expressions the source uses are modelled by
dedicated executable scanners with Python `re` leftmost-match semantics.
CSS selectors (used only via `soup.select_one`) are modelled for the
fragment actually exercised here: a bare tag-name selector, resolved to
the first element with that tag in document order.  Python `float` results
of `get_value` are modelled as exact rationals parsed from the matched
decimal token.
-/

/-! ## Python string primitives -/

/-- Python whitespace characters recognised by `str.strip()` (ASCII part). -/
def isPyWs (c : Char) : Bool :=
  c = ' ' || c = '\t' || c = '\n' || c = '\r' || c = '\x0b' || c = '\x0c'

/-- Model of `str.strip()` on a character list: drop whitespace from both ends. -/
def pstripList (l : List Char) : List Char :=
  ((l.dropWhile isPyWs).reverse.dropWhile isPyWs).reverse

/-- Python `str.strip()`. -/
def pstrip (s : String) : String :=
  ⟨pstripList s.data⟩

/-- ASCII lowercasing, modelling the effect of `re.I` matching. -/
def lowerStr (s : String) : String :=
  ⟨s.data.map Char.toLower⟩

/-- Substring test on character lists (used to model `re.search` of a
literal pattern): `subList pat hay` is true iff `pat` occurs contiguously
inside `hay`. -/
def subList (pat : List Char) : List Char → Bool
  | [] => pat.isEmpty
  | c :: rest => pat.isPrefixOf (c :: rest) || subList pat rest

/-- Case-insensitive literal-substring search, modelling
`re.search(pattern, s)` with `re.I` for a literal lowercase `pattern`. -/
def reSearchLit (pat : String) (s : String) : Bool :=
  subList pat.data (lowerStr s).data

/-- Python `str.title()` (ASCII model): a letter starts upper-case when the
previous character is not a letter, and is lower-cased otherwise; other
characters are left alone and break words. -/
def pytitleGo : List Char → Bool → List Char
  | [], _ => []
  | c :: rest, prevAlpha =>
    (if c.isAlpha then (if prevAlpha then c.toLower else c.toUpper) else c)
      :: pytitleGo rest c.isAlpha

/-- Python `str.title()`. -/
def pytitle (s : String) : String :=
  ⟨pytitleGo s.data false⟩

/-- Model of `re.sub(r"[^0-9a-zA-Z]+", "", s)`: strip all non-alphanumerics. -/
def stripNonAlnum (s : String) : String :=
  ⟨s.data.filter Char.isAlphanum⟩

/-! ## Numeric regex models

The source uses three numeric patterns:
* `(\d+(?:\.\d+)?%?)` searched in text (discovery fallback token),
* `^(-?\d+(?:\.\d+)?)\s*%?$` matched against the whole raw string,
* `(-?\d+(?:\.\d+)?)` searched in the raw string.
They are modelled by scanners with Python leftmost-then-greedy semantics. -/

/-- Match `\d+(?:\.\d+)?` at the head of the list (greedy): returns the
matched characters and the rest, or `none` when the head is not a digit. -/
def numCore (l : List Char) : Option (List Char × List Char) :=
  if (l.takeWhile Char.isDigit).isEmpty then none
  else
    match l.dropWhile Char.isDigit with
    | '.' :: r2 =>
      if (r2.takeWhile Char.isDigit).isEmpty then
        some (l.takeWhile Char.isDigit, l.dropWhile Char.isDigit)
      else
        some (l.takeWhile Char.isDigit ++ '.' :: r2.takeWhile Char.isDigit,
          r2.dropWhile Char.isDigit)
    | _ => some (l.takeWhile Char.isDigit, l.dropWhile Char.isDigit)

/-- Match `-?\d+(?:\.\d+)?` at the head of the list. -/
def numAt (l : List Char) : Option (List Char × List Char) :=
  match l with
  | '-' :: rest =>
    match numCore rest with
    | some (m, r) => some ('-' :: m, r)
    | none => none
  | _ => numCore l

/-- Model of `re.search(r"(-?\d+(?:\.\d+)?)", ·)`: leftmost match. -/
def searchNumList : List Char → Option (List Char)
  | [] => none
  | c :: rest =>
    match numAt (c :: rest) with
    | some (m, _) => some m
    | none => searchNumList rest

/-- Match `\d+(?:\.\d+)?%?` at the head of the list. -/
def tokAt (l : List Char) : Option (List Char × List Char) :=
  match numCore l with
  | none => none
  | some (m, r) =>
    match r with
    | '%' :: r2 => some (m ++ ['%'], r2)
    | _ => some (m, r)

/-- Model of `re.search(r"(\d+(?:\.\d+)?%?)", ·)` on a character list. -/
def searchTokList : List Char → Option (List Char)
  | [] => none
  | c :: rest =>
    match tokAt (c :: rest) with
    | some (m, _) => some m
    | none => searchTokList rest

/-- Model of `re.search(r"(\d+(?:\.\d+)?%?)", s)` returning `m.group(1)`. -/
def searchTok (s : String) : Option String :=
  (searchTokList s.data).map (fun l => ⟨l⟩)

/-- Model of `re.match(r"^(-?\d+(?:\.\d+)?)\s*%?$", s)` returning `m.group(1)`. -/
def fullNumMatch (s : String) : Option (List Char) :=
  match numAt s.data with
  | none => none
  | some (m, r) =>
    match r.dropWhile isPyWs with
    | [] => some m
    | ['%'] => some m
    | _ => none

/-- Numeric value of a digit list. -/
def digitsToNat (l : List Char) : Nat :=
  l.foldl (fun a c => a * 10 + (c.toNat - 48)) 0

/-- Value of `\d+(?:\.\d+)?` as an exact rational (model of `float(...)`
on the matched token). -/
def parseUnsigned (l : List Char) : ℚ :=
  let ds := l.takeWhile Char.isDigit
  let r := l.dropWhile Char.isDigit
  match r with
  | '.' :: fs => (digitsToNat ds : ℚ) + (digitsToNat fs : ℚ) / (10 ^ fs.length : ℚ)
  | _ => (digitsToNat ds : ℚ)

/-- Value of `-?\d+(?:\.\d+)?` as an exact rational. -/
def parseDec (l : List Char) : ℚ :=
  match l with
  | '-' :: r => - parseUnsigned r
  | _ => parseUnsigned l

/-! ## Document tree (BeautifulSoup model)

A node is an element with a tag name and an ordered list of children, each
child being either a text fragment (`NavigableString`) or an element.  The
whole parsed page is a root node (BeautifulSoup's `[document]` object);
`soup.find` searches its strict descendants only. -/

mutual
inductive HNode where
  | mk (tag : String) (children : HKids)
inductive HKids where
  | nil
  | ctext (s : String) (rest : HKids)
  | celem (n : HNode) (rest : HKids)
end

/-- Non-recursive view of one child slot. -/
inductive ChildRef where
  | txt (s : String)
  | el (n : HNode)

/-- Tag name of a node. -/
def tagOf : HNode → String
  | .mk t _ => t

mutual
/-- Text fragments of a node's subtree in document order
(BeautifulSoup's `_all_strings`). -/
def stringsN (n : HNode) : List String :=
  match n with
  | .mk _ cs => stringsC cs
def stringsC (cs : HKids) : List String :=
  match cs with
  | .nil => []
  | .ctext s rest => s :: stringsC rest
  | .celem n rest => stringsN n ++ stringsC rest
end

/-- Model of `tag.get_text(" ")`: all text fragments joined with a space. -/
def getTextSep (n : HNode) : String :=
  String.intercalate " " (stringsN n)

/-- Model of `tag.get_text(strip=True)`: each fragment stripped, empties dropped,
joined with the empty separator — i.e. the concatenation of the stripped
fragments. -/
def getTextStrip (n : HNode) : String :=
  String.join ((stringsN n).map pstrip)

/-- Child at a given index. -/
def childAt : HKids → Nat → Option ChildRef
  | .nil, _ => none
  | .ctext s _, 0 => some (.txt s)
  | .celem n _, 0 => some (.el n)
  | .ctext _ rest, i + 1 => childAt rest i
  | .celem _ rest, i + 1 => childAt rest i

/-- Drop the first `i` children. -/
def kidsDrop : HKids → Nat → HKids
  | cs, 0 => cs
  | .nil, _ + 1 => .nil
  | .ctext _ rest, i + 1 => kidsDrop rest i
  | .celem _ rest, i + 1 => kidsDrop rest i

/-- First element child, skipping text fragments (as `find_next_sibling()`
does when scanning forward). -/
def firstElem : HKids → Option HNode
  | .nil => none
  | .ctext _ rest => firstElem rest
  | .celem n _ => some n

/-- A node inside a tree is addressed by its path: the list of child
indices from the root. `nodeAtN root p` resolves the path. -/
def nodeAtN (n : HNode) : List Nat → Option HNode
  | [] => some n
  | i :: p =>
    match n with
    | .mk _ cs =>
      match childAt cs i with
      | some (.el m) => nodeAtN m p
      | _ => none

mutual
/-- Model of `soup.find(predicate)` restricted to `n`'s strict descendants: first
element node in document order (depth-first preorder) satisfying the
predicate, returned as a path. -/
def findN (pred : HNode → Bool) (n : HNode) : Option (List Nat) :=
  match n with
  | .mk _ cs => findC pred cs 0
def findC (pred : HNode → Bool) (cs : HKids) (i : Nat) : Option (List Nat) :=
  match cs with
  | .nil => none
  | .ctext _ rest => findC pred rest (i + 1)
  | .celem n rest =>
    if pred n then some [i]
    else
      match findN pred n with
      | some p => some (i :: p)
      | none => findC pred rest (i + 1)
end

/-- Model of `node.find_next_sibling()`: the next element sibling of the node at
path `p` (skipping text fragments); the root (`[document]`) has none. -/
def findNextSiblingNode (root : HNode) (p : List Nat) : Option HNode :=
  match p.getLast? with
  | none => none
  | some i =>
    match nodeAtN root p.dropLast with
    | some (.mk _ cs) => firstElem (kidsDrop cs (i + 1))
    | none => none

/-- Model of `node.parent`: the parent of the node at path `p`; for a top-level
node this is the root (`[document]`) object itself, and the root has no
parent. -/
def parentNodeOf (root : HNode) (p : List Nat) : Option HNode :=
  match p with
  | [] => none
  | _ => nodeAtN root p.dropLast

/-- Model of `node.parent.find_next_sibling()` for the node at path `p`. -/
def parentSiblingNode (root : HNode) (p : List Nat) : Option HNode :=
  match p with
  | [] => none
  | _ => findNextSiblingNode root p.dropLast

/-! ## Label rules (the `candidates` regex table, lines 77-83) -/

/-- Model of `re.compile(r"ball possession", re.I)` as a search predicate. -/
def reBallPossession (s : String) : Bool :=
  reSearchLit "ball possession" s

/-- Model of `re.compile(r"avg(?:\.|) goals|goals per match|average goals", re.I)`. -/
def reAvgGoals (s : String) : Bool :=
  reSearchLit "avg. goals" s || reSearchLit "avg goals" s ||
    reSearchLit "goals per match" s || reSearchLit "average goals" s

/-- Model of `re.compile(r"clean sheets?", re.I)`: a search hit is exactly an
occurrence of the literal "clean sheet". -/
def reCleanSheets (s : String) : Bool :=
  reSearchLit "clean sheet" s

/-- Model of `re.compile(r"^goals$", re.I)` under `re.search`: the whole string is
"goals" (`$` also matches just before one trailing newline). -/
def reGoals (s : String) : Bool :=
  lowerStr s = "goals" || lowerStr s = "goals\n"

/-- Model of `re.compile(r"on target", re.I)`. -/
def reOnTarget (s : String) : Bool :=
  reSearchLit "on target" s

/-- The `candidates` table of line 77, in insertion order. -/
def candidates : List (String × (String → Bool)) :=
  [("Ball possession", reBallPossession),
   ("Average goals", reAvgGoals),
   ("Clean sheets", reCleanSheets),
   ("Goals", reGoals),
   ("Shots on target", reOnTarget)]

/-- The tag whitelist of lines 88 and 113. -/
def labelTags : List String :=
  ["div", "span", "p", "td", "th"]

/-- The node predicate of lines 88 and 113:
`tag.name in [...] and tag.get_text(strip=True) and label_re.search(tag.get_text(" "))`. -/
def labelPred (rule : String → Bool) (n : HNode) : Bool :=
  labelTags.contains (tagOf n) && (getTextStrip n != "") && rule (getTextSep n)

/-! ## Extractor values

An extractor is stored as a Python callable of declared type
`Callable[[BeautifulSoup], Optional[str]]`.  Applying one yields a Python
value: `None`, a string — or (through the bound-extractor slip of
line 108) another closure.  The closure case carries the actual inner
function `lambda soup: captured_val`, whose `captured_val` default was
rebound to the tree passed to the outer lambda. -/

inductive PyRes where
  | pnone
  | pstr (s : String)
  | closure (f : HNode → HNode)

/-- Extractors map a document tree to a Python result. -/
def Extractor : Type :=
  HNode → PyRes

/-- Model of `Optional[str]` to Python-result coercion. -/
def pyOfOpt : Option String → PyRes
  | none => .pnone
  | some s => .pstr s

/-- Python truthiness of an `Optional[str]` (`None` and `""` are falsy). -/
def truthyO : Option String → Bool
  | none => false
  | some s => s != ""

/-! ## `RequestsScraper` (lines 39-127) -/

/-- Model of `soup.select_one(selector)` for the selector fragment modelled here (a
bare tag-name selector): first element with that tag in document order. -/
def select_one (soup : HNode) (sel : String) : Option HNode :=
  (findN (fun n => tagOf n == sel) soup).bind (nodeAtN soup)

/-- Model of `RequestsScraper.extract_by_selector` (lines 53-57). -/
def extract_by_selector (soup : HNode) (sel : String) : Option String :=
  (select_one soup sel).map getTextStrip

/-- The selector extractor of lines 68-69:
`lambda soup: self.extract_by_selector(soup, sel)`. -/
def rsSelectorExtractor (sel : String) : Extractor :=
  fun soup => pyOfOpt (extract_by_selector soup sel)

/-- Model of `RequestsScraper.find_metrics` in explicit-selector mode (line 70):
one selector extractor per entry, in dict order. -/
def find_metrics_selectors (sels : List (String × String)) : List (String × Extractor) :=
  sels.map (fun kv => (kv.1, rsSelectorExtractor kv.2))

/-- The `PlaywrightScraper.find_metrics` selector extractor of lines
163-164: `lambda _: rs.extract_by_selector(soup, sel)` — the soup fetched
at construction time is captured and the call-time tree is ignored. -/
def pwSelectorExtractor (soup0 : HNode) (sel : String) : Extractor :=
  fun _ => pyOfOpt (extract_by_selector soup0 sel)

/-- Discovery-time value resolution for the label node at path `p`
(lines 91-105): next-sibling text, then parent's-next-sibling text (each
kept only when truthy), then the first numeric token of the label's text
joined with the parent's text. -/
def discoverValue (root : HNode) (p : List Nat) : Option String :=
  let val1 : Option String := (findNextSiblingNode root p).map getTextStrip
  let val2 : Option String :=
    if truthyO val1 then val1
    else
      match parentNodeOf root p with
      | none => val1
      | some _ =>
        match parentSiblingNode root p with
        | some nx => some (getTextStrip nx)
        | none => val1
  if truthyO val2 then val2
  else
    searchTok ((((nodeAtN root p).map getTextSep).getD "") ++ " "
      ++ (((parentNodeOf root p).map getTextSep).getD ""))

/-- The bound extractor of line 108, exactly as written:
`mapping[label_text] = (lambda captured_val=val: (lambda soup: captured_val))`.
The outer lambda is stored *uncalled*, so the stored callable's parameter
is `captured_val` (defaulting to the discovered string); applying it to a
tree rebinds `captured_val` to that tree and returns the inner closure. -/
def boundExtractorLine108 (captured_default : String) : Extractor :=
  fun soup => PyRes.closure (fun _ => soup)

/-- The lazy extractor of lines 111-125: re-runs the label search, then
returns the next sibling's text if a sibling exists, else the parent's
next sibling's text if one exists, else the first numeric token of the
label node's own text. -/
def lazyExtractor (rule : String → Bool) : Extractor :=
  fun soup =>
    match findN (labelPred rule) soup with
    | none => .pnone
    | some p =>
      match findNextSiblingNode soup p with
      | some sib => .pstr (getTextStrip sib)
      | none =>
        match
          (match parentNodeOf soup p with
           | some _ => parentSiblingNode soup p
           | none => none) with
        | some nx => .pstr (getTextStrip nx)
        | none =>
          match searchTok (((nodeAtN soup p).map getTextSep).getD "") with
          | some tok => .pstr tok
          | none => .pnone

/-- One iteration of the lines 87-126 loop for a single catalog entry:
the first node satisfying the label predicate is resolved; a truthy
resolution yields the line-108 bound extractor, a falsy one the lazy
extractor; no label node yields no entry. -/
def discoverEntry (soup : HNode) (c : String × (String → Bool)) :
    Option (String × Extractor) :=
  match findN (labelPred c.2) soup with
  | none => none
  | some p =>
    let val := discoverValue soup p
    if truthyO val then some (c.1, boundExtractorLine108 (val.getD ""))
    else some (c.1, lazyExtractor c.2)

/-- Model of `RequestsScraper.find_metrics` in auto-discovery mode (lines 72-127)
against the fetched tree `soup`: the lines 87-126 loop over the catalog;
categories with no label node are omitted. -/
def find_metrics_auto (soup : HNode) : List (String × Extractor) :=
  candidates.filterMap (discoverEntry soup)

/-! ## `MetricBase` (lines 173-232) -/

/-- Python exceptions surfaced by the modelled operations:
`RuntimeError` (configuration checks of lines 194-197), fetcher failures
(`requests` errors from `fetch_soup`), and `AttributeError` (attribute
lookup on an object lacking it, e.g. `.strip()` on a function object, or
`getattr` on a missing class attribute). -/
inductive PyErr where
  | runtimeErr (msg : String)
  | fetchErr
  | attrErr (msg : String)
  deriving DecidableEq

/-- A generated metric class: the attributes installed at line 282-288.
`sofascore_url` and `_extractor` keep their `Optional` defaults from
`MetricBase` (lines 181-182). -/
structure MetricClass where
  metric_name : String
  sofascore_url : Option String
  extractor : Option Extractor

/-- Python truthiness of the `sofascore_url` attribute. -/
def urlTruthy : Option String → Bool
  | none => false
  | some s => s != ""

/-- Model of `MetricBase.fetch_raw` (lines 191-200): configuration checks first,
then one fetch, then the extractor applied to the fetched tree.  The
page fetcher is passed explicitly as a function from URL to either a
fetch failure or a parsed tree. -/
def fetch_raw (cls : MetricClass) (fetch : String → Except Unit HNode) :
    Except PyErr PyRes :=
  match cls.sofascore_url with
  | none => .error (.runtimeErr "sofascore_url not set on metric class")
  | some u =>
    if u = "" then .error (.runtimeErr "sofascore_url not set on metric class")
    else
      match cls.extractor with
      | none => .error (.runtimeErr "extractor not provided for metric")
      | some ex =>
        match fetch u with
        | .error _ => .error .fetchErr
        | .ok soup => .ok (ex soup)

/-- Result of `MetricBase.get_value`: a number (`float`, modelled as an
exact rational) or a string. -/
inductive GetVal where
  | num (q : ℚ)
  | vstr (s : String)
  deriving DecidableEq

/-- The numeric-coercion body of `get_value` (lines 209-222) applied to a
raw string: strip, try the full-string pattern, try an embedded numeric
token, else return the stripped string.  (Both arms of the line 214
percent test return `val`, so they are collapsed.) -/
def coerceRaw (raw : String) : GetVal :=
  let r := pstrip raw
  match fullNumMatch r with
  | some m => .num (parseDec m)
  | none =>
    match searchNumList r.data with
    | some m => .num (parseDec m)
    | none => .vstr r

/-- Model of `get_value` restricted to an already-obtained `Optional[str]` raw
result (lines 206-222 after the `fetch_raw` call). -/
def getValueOpt : Option String → Option GetVal
  | none => none
  | some s => some (coerceRaw s)

/-- Model of `MetricBase.get_value` (lines 202-222): `fetch_raw`, `None` maps to
`None`, a string is coerced — and a non-string (the closure produced by
the line-108 extractor) makes `raw.strip()` raise `AttributeError`. -/
def get_value (cls : MetricClass) (fetch : String → Except Unit HNode) :
    Except PyErr (Option GetVal) :=
  match fetch_raw cls fetch with
  | .error e => .error e
  | .ok .pnone => .ok none
  | .ok (.pstr s) => .ok (some (coerceRaw s))
  | .ok (.closure _) => .error (.attrErr "function object has no attribute strip")

/-- Model of `MetricBase.refresh` (lines 224-229): sleep for `delay_seconds` when
it is truthy (nonzero), then `fetch_raw`.  The first component records
the time slept; the second is the fetch result. -/
def refresh (cls : MetricClass) (delay_seconds : ℚ)
    (fetch : String → Except Unit HNode) : ℚ × Except PyErr PyRes :=
  ((if delay_seconds ≠ 0 then delay_seconds else 0), fetch_raw cls fetch)

/-! ## `MetricMeta.__new__` (lines 253-297) -/

/-- Python `str.endswith` (list-based, so that it evaluates in the
kernel). -/
def strEndsWith (s suffix : String) : Bool :=
  suffix.data.isSuffixOf s.data

/-- The class-name generation of lines 279-280: strip non-alphanumerics
from the title-cased name, fall back to "Metric" when empty, append the
"Metric" suffix unless already present (when the stripped name is empty
the fallback "Metric" already carries the suffix). -/
def className (metric_name : String) : String :=
  if stripNonAlnum (pytitle metric_name) = "" then "Metric"
  else if strEndsWith (stripNonAlnum (pytitle metric_name)) "Metric" then
    stripNonAlnum (pytitle metric_name)
  else stripNonAlnum (pytitle metric_name) ++ "Metric"

/-- The identifier recomputed by the `_discovered_metrics` comprehension
of line 295: `re.sub(r"[^0-9a-zA-Z]+", "", k.title()) + "Metric"` — with
neither the empty-name fallback nor the suffix-presence check. -/
def line295Name (k : String) : String :=
  stripNonAlnum (pytitle k) ++ "Metric"

/-- Model of `setattr(cls, name, value)` on the class attribute table: the newest
binding shadows any earlier one. -/
def setAttr (attrs : List (String × MetricClass)) (k : String) (v : MetricClass) :
    List (String × MetricClass) :=
  (k, v) :: attrs

/-- Model of `getattr(cls, name)` as an optional lookup (first, i.e. newest,
binding wins). -/
def getAttr (attrs : List (String × MetricClass)) (k : String) : Option MetricClass :=
  attrs.lookup k

/-- The discovery loop of lines 277-292: one generated class per
discovered metric, installed with `setattr` under its generated name. -/
def buildAttrs (url : String) (discovered : List (String × Extractor)) :
    List (String × MetricClass) :=
  discovered.foldl
    (fun attrs kv =>
      setAttr attrs (className kv.1)
        { metric_name := kv.1, sofascore_url := some url, extractor := some kv.2 })
    []

/-- The `_discovered_metrics` comprehension of line 295: for each
discovered name, `getattr` the class under the line-295 identifier; a
missing attribute raises `AttributeError`. -/
def discoveredMetricsMap (attrs : List (String × MetricClass)) :
    List String → Except PyErr (List (String × MetricClass))
  | [] => .ok []
  | k :: ks =>
    match getAttr attrs (line295Name k) with
    | none => .error (.attrErr k)
    | some c =>
      match discoveredMetricsMap attrs ks with
      | .error e => .error e
      | .ok rest => .ok ((k, c) :: rest)

/-- The registry produced by `MetricMeta.__new__` when `sofascore_url`
is truthy: the class-attribute table and the `_discovered_metrics`
mapping. -/
structure Registry where
  attrs : List (String × MetricClass)
  discovered_metrics : List (String × MetricClass)

/-- Model of `MetricMeta.__new__` (lines 277-296) after discovery returned the
mapping `discovered`: install the generated classes, then build
`_discovered_metrics` (which can raise `AttributeError`, line 295). -/
def metricMetaNew (url : String) (discovered : List (String × Extractor)) :
    Except PyErr Registry :=
  let attrs := buildAttrs url discovered
  match discoveredMetricsMap attrs (discovered.map Prod.fst) with
  | .error e => .error e
  | .ok dm => .ok { attrs := attrs, discovered_metrics := dm }

/-! ## Spec-side comparison definitions -/

/-- The identifier-generation formula in the words of the spec (§4.3):
"stripping all non-alphanumeric characters and title-casing words, then
appending a fixed suffix if not already present". -/
def specClassName (metric_name : String) : String :=
  if strEndsWith (stripNonAlnum (pytitle metric_name)) "Metric" then
    stripNonAlnum (pytitle metric_name)
  else stripNonAlnum (pytitle metric_name) ++ "Metric"

/-- The `get_value` coercion in the words of the spec (§4.5): if the
entire trimmed string matches "optional minus sign, digits, optional
decimal fraction, optional trailing percent", its number (percent
stripped, magnitude unscaled); otherwise the first embedded numeric token
anywhere in the string; otherwise the original raw string unchanged. -/
def specFullNum (s : String) : Option (List Char) :=
  match numAt s.data with
  | none => none
  | some (m, r) =>
    match r with
    | [] => some m
    | ['%'] => some m
    | _ => none

/-- Numeric coercion as the spec describes it, for comparison with
`coerceRaw`. -/
def specCoerce (raw : String) : GetVal :=
  match specFullNum raw with
  | some m => .num (parseDec m)
  | none =>
    match searchNumList raw.data with
    | some m => .num (parseDec m)
    | none => .vstr raw

/-! ## Concrete documents used as witnesses and counterexamples -/

/-- The document `<doc><div>Ball possession 61%</div></doc>`: auto-discovery resolves
"61%" by the numeric-token fallback, so the category binds. -/
def docBound : HNode :=
  .mk "[document]" (.celem (.mk "div" (.ctext "Ball possession 61%" .nil)) .nil)

/-- A second, different page (label text resolves to another value). -/
def docBound2 : HNode :=
  .mk "[document]" (.celem (.mk "div" (.ctext "Ball possession 43%" .nil)) .nil)

/-- The document `<doc><section><div>Ball possession</div><div>61%</div></section><div>55%</div></doc>`:
the label node's next sibling holds "61%" while the parent's next sibling
holds "55%" (the `section` tag is outside the label-tag whitelist, so the
inner `div` is the label node). -/
def doc6155 : HNode :=
  .mk "[document]"
    (.celem
      (.mk "section"
        (.celem (.mk "div" (.ctext "Ball possession" .nil))
          (.celem (.mk "div" (.ctext "61%" .nil)) .nil)))
      (.celem (.mk "div" (.ctext "55%" .nil)) .nil))

/-- The document `<doc><td>Clean sheets 9</td></doc>`: no sibling and no
parent-sibling; the value comes from the embedded numeric token. -/
def docCS9 : HNode :=
  .mk "[document]" (.celem (.mk "td" (.ctext "Clean sheets 9" .nil)) .nil)

/-- The document `<doc><div>Clean sheets</div>9</doc>`: the label node has no element
sibling and the root has none either, but the *parent's* text contains
"9".  The discovery pass finds "9" through the concatenated-text
fallback; the lazy extractor's fallback searches only the label node's
own text and finds nothing. -/
def docCSparent : HNode :=
  .mk "[document]" (.celem (.mk "div" (.ctext "Clean sheets" .nil)) (.ctext "9" .nil))

/-- The document `<doc><div>Ball possession</div></doc>`: a recognisable label with no
resolvable value anywhere. -/
def docBPonly : HNode :=
  .mk "[document]" (.celem (.mk "div" (.ctext "Ball possession" .nil)) .nil)

/-- The document `<doc><div>Ball possession</div><div></div></doc>`: a recognisable
label whose next sibling exists but has empty text, so discovery resolves
nothing, yet the lazy extractor returns the sibling's empty text. -/
def docBPemptySib : HNode :=
  .mk "[document]"
    (.celem (.mk "div" (.ctext "Ball possession" .nil))
      (.celem (.mk "div" .nil) .nil))

/-- The document `<doc><b>x</b></doc>`: selector "b" resolves to "x". -/
def docSelX : HNode :=
  .mk "[document]" (.celem (.mk "b" (.ctext "x" .nil)) .nil)

/-- The document `<doc><b>y</b></doc>`: selector "b" resolves to "y". -/
def docSelY : HNode :=
  .mk "[document]" (.celem (.mk "b" (.ctext "y" .nil)) .nil)

/-- A fetcher that always returns the given tree. -/
def fetchConst (t : HNode) : String → Except Unit HNode :=
  fun _ => .ok t

/-- A fetcher that always fails. -/
def fetchFail : String → Except Unit HNode :=
  fun _ => .error ()

/-! ## Helper lemmas -/

theorem findN_mk (pred : HNode → Bool) (t : String) (cs : HKids) :
    findN pred (.mk t cs) = findC pred cs 0 :=
  rfl

theorem findC_ctext (pred : HNode → Bool) (s : String) (rest : HKids) (i : Nat) :
    findC pred (.ctext s rest) i = findC pred rest (i + 1) :=
  rfl

theorem findC_celem (pred : HNode → Bool) (n : HNode) (rest : HKids) (i : Nat) :
    findC pred (.celem n rest) i =
      if pred n then some [i]
      else
        match findN pred n with
        | some p => some (i :: p)
        | none => findC pred rest (i + 1) :=
  rfl

mutual
theorem findC_sound (pred : HNode → Bool) (cs : HKids) (i : Nat) (p : List Nat)
    (h : findC pred cs i = some p) :
    ∃ j q n0 m, p = j :: q ∧ i ≤ j ∧ childAt cs (j - i) = some (.el n0) ∧
      nodeAtN n0 q = some m ∧ pred m = true := by
  match cs with
  | .nil => exact absurd h (by simp [findC])
  | .ctext s rest =>
    rw [findC_ctext] at h
    obtain ⟨j, q, n0, m, hp, hij, hc, hm, hpr⟩ := findC_sound pred rest (i + 1) p h
    refine ⟨j, q, n0, m, hp, by omega, ?_, hm, hpr⟩
    rw [show j - i = (j - (i + 1)) + 1 by omega]
    exact hc
  | .celem n rest =>
    rw [findC_celem] at h
    by_cases hpn : pred n
    · rw [if_pos hpn] at h
      cases h
      exact ⟨i, [], n, n, rfl, Nat.le_refl i, by simp [childAt], rfl, hpn⟩
    · rw [if_neg hpn] at h
      cases hfn : findN pred n with
      | some q0 =>
        rw [hfn] at h
        cases h
        obtain ⟨m, hm, hpr⟩ := findN_sound pred n q0 hfn
        exact ⟨i, q0, n, m, rfl, Nat.le_refl i, by simp [childAt], hm, hpr⟩
      | none =>
        rw [hfn] at h
        obtain ⟨j, q, n0, m, hp, hij, hc, hm, hpr⟩ := findC_sound pred rest (i + 1) p h
        refine ⟨j, q, n0, m, hp, by omega, ?_, hm, hpr⟩
        rw [show j - i = (j - (i + 1)) + 1 by omega]
        exact hc
theorem findN_sound (pred : HNode → Bool) (n : HNode) (p : List Nat)
    (h : findN pred n = some p) :
    ∃ m, nodeAtN n p = some m ∧ pred m = true := by
  match n with
  | .mk t cs =>
    rw [findN_mk] at h
    obtain ⟨j, q, n0, m, hp, _, hc, hm, hpr⟩ := findC_sound pred cs 0 p h
    subst hp
    rw [Nat.sub_zero] at hc
    refine ⟨m, ?_, hpr⟩
    show nodeAtN (.mk t cs) (j :: q) = some m
    simp only [nodeAtN]
    rw [hc]
    exact hm
end

/-- The scanner `numCore` fails exactly when the text does not start with a digit. -/
theorem numCore_none_iff (l : List Char) :
    numCore l = none ↔ (l.takeWhile Char.isDigit).isEmpty = true := by
  unfold numCore
  by_cases he : (l.takeWhile Char.isDigit).isEmpty
  · rw [if_pos he]
    simp [he]
  · rw [if_neg he]
    constructor
    · intro h
      split at h
      · split at h
        · exact absurd h (by simp)
        · exact absurd h (by simp)
      · exact absurd h (by simp)
    · intro h
      exact absurd h he

/-- Matches of `numCore` begin with a digit run, so a match is non-empty. -/
theorem numCore_some_ne_nil (l m r : List Char) (h : numCore l = some (m, r)) :
    m ≠ [] := by
  unfold numCore at h
  by_cases he : (l.takeWhile Char.isDigit).isEmpty
  · rw [if_pos he] at h
    exact absurd h (by simp)
  · have hds : l.takeWhile Char.isDigit ≠ [] := by
      intro hnil
      rw [hnil] at he
      exact he rfl
    rw [if_neg he] at h
    split at h
    · split at h
      · cases h; exact hds
      · cases h
        simp only [ne_eq, List.append_eq_nil]
        intro hand
        exact hds hand.1
    · cases h; exact hds

/-- A `tokAt` match is non-empty. -/
theorem tokAt_some_ne_nil (l m r : List Char) (h : tokAt l = some (m, r)) :
    m ≠ [] := by
  unfold tokAt at h
  cases hnc : numCore l with
  | none => rw [hnc] at h; exact absurd h (by simp)
  | some dsr =>
    obtain ⟨ds, r0⟩ := dsr
    rw [hnc] at h
    have hds := numCore_some_ne_nil l ds r0 hnc
    dsimp only at h
    split at h
    · cases h
      simp only [ne_eq, List.append_eq_nil]
      intro hand
      exact hds hand.1
    · cases h; exact hds

/-- A successful token search yields a non-empty match. -/
theorem searchTokList_some_ne_nil (l t : List Char)
    (h : searchTokList l = some t) : t ≠ [] := by
  induction l with
  | nil => exact absurd h (by simp [searchTokList])
  | cons c rest ih =>
    rw [show searchTokList (c :: rest)
        = (match tokAt (c :: rest) with
           | some (m, _) => some m
           | none => searchTokList rest) from rfl] at h
    cases htok : tokAt (c :: rest) with
    | some mr =>
      obtain ⟨m, r⟩ := mr
      rw [htok] at h
      cases h
      exact tokAt_some_ne_nil _ _ _ htok
    | none =>
      rw [htok] at h
      exact ih h

/-- The scanner `tokAt` fails exactly when `numCore` does. -/
theorem tokAt_none_iff (l : List Char) :
    tokAt l = none ↔ numCore l = none := by
  unfold tokAt
  cases hnc : numCore l with
  | none => simp
  | some dsr =>
    obtain ⟨ds, r0⟩ := dsr
    dsimp only
    constructor
    · intro h
      split at h
      · exact absurd h (by simp)
      · exact absurd h (by simp)
    · intro h
      exact absurd h (by simp)

/-- The scanner `tokAt` on a non-empty list fails exactly when the head character is
not a digit. -/
theorem tokAt_cons_none_iff (c : Char) (rest : List Char) :
    tokAt (c :: rest) = none ↔ c.isDigit = false := by
  rw [tokAt_none_iff, numCore_none_iff, List.takeWhile_cons]
  by_cases hc : c.isDigit
  · simp [hc]
  · simp [hc]
  
/-- The token search fails exactly on digit-free text. -/
theorem searchTokList_none_iff (l : List Char) :
    searchTokList l = none ↔ ∀ c ∈ l, c.isDigit = false := by
  induction l with
  | nil => simp [searchTokList]
  | cons c rest ih =>
    rw [show searchTokList (c :: rest)
        = (match tokAt (c :: rest) with
           | some (m, _) => some m
           | none => searchTokList rest) from rfl]
    constructor
    · intro h
      cases htok : tokAt (c :: rest) with
      | some mr => rw [htok] at h; exact absurd h (by simp)
      | none =>
        rw [htok] at h
        have hc := (tokAt_cons_none_iff c rest).mp htok
        intro x hx
        rcases List.mem_cons.mp hx with hx | hx
        · subst hx; exact hc
        · exact (ih.mp h) x hx
    · intro hall
      have hc : c.isDigit = false := hall c (List.mem_cons_self c rest)
      rw [(tokAt_cons_none_iff c rest).mpr hc]
      exact ih.mpr (fun x hx => hall x (List.mem_cons_of_mem c hx))

/-! ## Claim theorems -/

/-- C8: for every delay value, `refresh(delaySeconds)` returns the same
result as a direct `fetchRaw()` on the same accessor against the same
fetched document state; the delay only suspends the caller before the
fetch and does not alter the result. -/
theorem c8_refresh_equals_fetch_raw (cls : MetricClass) (delay_seconds : ℚ)
    (fetch : String → Except Unit HNode) :
    (refresh cls delay_seconds fetch).2 = fetch_raw cls fetch ∧
    ∀ d2 : ℚ, (refresh cls delay_seconds fetch).2 = (refresh cls d2 fetch).2 := by
  exact ⟨rfl, fun _ => rfl⟩

/-- C7: `fetch_raw` raises its configuration `RuntimeError` exactly when
`sofascore_url` is absent (falsy) or the extractor is absent; the check
happens before any fetch (the result is then independent of the fetcher);
with both present it fails with a fetch error exactly when the fetcher
fails, and otherwise returns the extractor applied to the freshly fetched
tree. -/
theorem c7_fetch_raw_error_contract (cls : MetricClass)
    (fetch fetch2 : String → Except Unit HNode) :
    ((∃ m, fetch_raw cls fetch = .error (.runtimeErr m)) ↔
      (urlTruthy cls.sofascore_url = false ∨ cls.extractor = none)) ∧
    ((urlTruthy cls.sofascore_url = false ∨ cls.extractor = none) →
      fetch_raw cls fetch = fetch_raw cls fetch2) ∧
    (∀ u ex, cls.sofascore_url = some u → u ≠ "" → cls.extractor = some ex →
      (∀ e : Unit, fetch u = .error e → fetch_raw cls fetch = .error .fetchErr) ∧
      (∀ t, fetch u = .ok t → fetch_raw cls fetch = .ok (ex t))) := by
  obtain ⟨name, url, ex⟩ := cls
  cases url with
  | none =>
    refine ⟨?_, fun _ => rfl, ?_⟩
    · simp [fetch_raw, urlTruthy]
    · intro u ex' hu
      exact absurd hu (by simp)
  | some u =>
    by_cases hu : u = ""
    · subst hu
      refine ⟨?_, fun _ => rfl, ?_⟩
      · simp [fetch_raw, urlTruthy]
      · intro u' ex' hu' hne hex
        cases hu'
        exact absurd rfl hne
    · cases ex with
      | none =>
        refine ⟨?_, fun _ => rfl, ?_⟩
        · simp [fetch_raw, urlTruthy, hu]
        · intro u' ex' hu' hne hex
          exact absurd hex (by simp)
      | some e =>
        refine ⟨?_, ?_, ?_⟩
        · simp only [fetch_raw, if_neg hu]
          constructor
          · intro hm
            obtain ⟨m, hm⟩ := hm
            cases hf : fetch u with
            | error err => rw [hf] at hm; exact absurd hm (by simp)
            | ok t => rw [hf] at hm; exact absurd hm (by simp)
          · intro hbad
            rcases hbad with hbad | hbad
            · exact absurd hbad (by simp [urlTruthy, hu])
            · exact absurd hbad (by simp)
        · intro hbad
          rcases hbad with hbad | hbad
          · exact absurd hbad (by simp [urlTruthy, hu])
          · exact absurd hbad (by simp)
        · intro u' ex' hu' hne hex
          cases hu'
          cases hex
          constructor
          · intro err hf
            simp only [fetch_raw, if_neg hu, hf]
          · intro t hf
            simp only [fetch_raw, if_neg hu, hf]

/-- Closed instance discharging C7's hypotheses: a class missing its
extractor yields the configuration error independently of the fetcher,
and a fully configured class returns the extractor's value on the
fetched tree. -/
theorem c7_fetch_raw_error_contract_witness :
    fetch_raw ⟨"Goals", some "u", none⟩ (fetchConst docSelX)
      = fetch_raw ⟨"Goals", some "u", none⟩ fetchFail ∧
    fetch_raw ⟨"Goals", some "u", some (rsSelectorExtractor "b")⟩ (fetchConst docSelX)
      = .ok (rsSelectorExtractor "b" docSelX) := by
  constructor
  · exact (c7_fetch_raw_error_contract ⟨"Goals", some "u", none⟩
      (fetchConst docSelX) fetchFail).2.1 (Or.inr rfl)
  · exact ((c7_fetch_raw_error_contract ⟨"Goals", some "u", some (rsSelectorExtractor "b")⟩
      (fetchConst docSelX) fetchFail).2.2 "u" (rsSelectorExtractor "b") rfl
      (by decide) rfl).2 docSelX rfl

/-- C10: a node chosen as a category's label node (by the search predicate
of lines 88/113) always has a tag in the div/span/p/td/th whitelist and a
non-empty stripped text; nodes outside that whitelist or with empty
stripped text are never selected, whatever the recognition rule says. -/
theorem c10_label_node_tag_and_text (rule : String → Bool) (soup : HNode)
    (p : List Nat) (h : findN (labelPred rule) soup = some p) :
    ∃ n, nodeAtN soup p = some n ∧
      labelTags.contains (tagOf n) = true ∧
      getTextStrip n ≠ "" ∧
      rule (getTextSep n) = true := by
  obtain ⟨m, hm, hpred⟩ := findN_sound (labelPred rule) soup p h
  refine ⟨m, hm, ?_, ?_, ?_⟩
  · have := hpred
    unfold labelPred at this
    simp only [Bool.and_eq_true] at this
    exact this.1.1
  · have := hpred
    unfold labelPred at this
    simp only [Bool.and_eq_true, bne_iff_ne, ne_eq] at this
    exact this.1.2
  · have := hpred
    unfold labelPred at this
    simp only [Bool.and_eq_true] at this
    exact this.2

/-- Closed instance discharging C10's hypothesis at a concrete document:
the "Ball possession" label search on `doc6155` selects the inner
`div` (path `[0, 0]`), which is whitelisted, has non-empty stripped text
and satisfies the rule. -/
theorem c10_label_node_tag_and_text_witness :
    findN (labelPred reBallPossession) doc6155 = some [0, 0] ∧
    ∃ n, nodeAtN doc6155 [0, 0] = some n ∧
      labelTags.contains (tagOf n) = true ∧
      getTextStrip n ≠ "" ∧
      reBallPossession (getTextSep n) = true :=
  ⟨rfl, c10_label_node_tag_and_text reBallPossession doc6155 [0, 0] rfl⟩

/-- C1 (code evaluation at the failing input): on a page where discovery
resolves "61%" for "Ball possession", the stored "bound" extractor of
line 108 is the *uncalled* outer lambda; applied to any tree it returns
the inner closure (with `captured_val` rebound to that tree), never the
captured string, and `get_value` on such a class raises
`AttributeError` when it calls `.strip()` on the returned function. -/
theorem c1_bound_extractor_line108_eval :
    find_metrics_auto docBound = [("Ball possession", boundExtractorLine108 "61%")] ∧
    discoverValue docBound [0] = some "61%" ∧
    boundExtractorLine108 "61%" docBound = PyRes.closure (fun _ => docBound) ∧
    boundExtractorLine108 "61%" docBound2 = PyRes.closure (fun _ => docBound2) ∧
    (∀ s, boundExtractorLine108 "61%" docBound ≠ PyRes.pstr s) ∧
    get_value ⟨"Ball possession", some "u", some (boundExtractorLine108 "61%")⟩
        (fetchConst docBound)
      = .error (.attrErr "function object has no attribute strip") := by
  refine ⟨rfl, rfl, rfl, rfl, ?_, rfl⟩
  intro s h
  exact PyRes.noConfusion h

/-- C2 (counterexample): the claim asserts laziness for selector
extractors of *both* backends, but the Playwright selector extractor
(lines 163-164) captures the construction-time tree and ignores the tree
passed at call time: on two trees where selector "b" resolves to
different text ("x" vs "y"), it returns the same raw result both times. -/
theorem c2_playwright_selector_not_lazy_cex :
    extract_by_selector docSelX "b" = some "x" ∧
    extract_by_selector docSelY "b" = some "y" ∧
    pwSelectorExtractor docSelX "b" docSelX = PyRes.pstr "x" ∧
    pwSelectorExtractor docSelX "b" docSelY = PyRes.pstr "x" ∧
    pwSelectorExtractor docSelX "b" docSelX = pwSelectorExtractor docSelX "b" docSelY := by
  exact ⟨rfl, rfl, rfl, rfl, rfl⟩

/-- C2 (amended): a `RequestsScraper` selector extractor is lazy against
the tree passed at call time — it returns the trimmed text of the first
node matching the selector in that tree (or no value), so differing
selector resolutions give differing raw results; a `PlaywrightScraper`
selector extractor instead always evaluates against the tree fetched at
construction time, ignoring the call-time tree. -/
theorem c2_selector_extractor_laziness_amended (sel : String)
    (t0 t1 t2 : HNode) :
    rsSelectorExtractor sel t1 = pyOfOpt ((select_one t1 sel).map getTextStrip) ∧
    (extract_by_selector t1 sel ≠ extract_by_selector t2 sel →
      rsSelectorExtractor sel t1 ≠ rsSelectorExtractor sel t2) ∧
    pwSelectorExtractor t0 sel t1 = pwSelectorExtractor t0 sel t2 ∧
    (∀ p n, select_one t1 sel = some n → findN (fun x => tagOf x == sel) t1 = some p →
      tagOf n = sel) := by
  refine ⟨rfl, ?_, rfl, ?_⟩
  · intro hne heq
    apply hne
    have : pyOfOpt (extract_by_selector t1 sel) = pyOfOpt (extract_by_selector t2 sel) := heq
    cases h1 : extract_by_selector t1 sel with
    | none =>
      cases h2 : extract_by_selector t2 sel with
      | none => rfl
      | some s2 =>
        rw [h1, h2] at this
        exact absurd this (by intro hh; exact PyRes.noConfusion hh)
    | some s1 =>
      cases h2 : extract_by_selector t2 sel with
      | none =>
        rw [h1, h2] at this
        exact absurd this (by intro hh; exact PyRes.noConfusion hh)
      | some s2 =>
        rw [h1, h2] at this
        have hs : s1 = s2 := by
          have := PyRes.pstr.inj this
          exact this
        rw [hs]
  · intro p n hsel hfind
    unfold select_one at hsel
    rw [hfind] at hsel
    obtain ⟨m, hm, hpred⟩ := findN_sound (fun x => tagOf x == sel) t1 p hfind
    have hsel2 : nodeAtN t1 p = some n := hsel
    rw [hm] at hsel2
    cases hsel2
    exact (beq_iff_eq.mp hpred)

/-- Closed instance discharging C2's amended hypotheses: on the two
concrete pages the RequestsScraper extractor yields different results
while the Playwright one yields the same. -/
theorem c2_selector_extractor_laziness_witness :
    rsSelectorExtractor "b" docSelX ≠ rsSelectorExtractor "b" docSelY ∧
    pwSelectorExtractor docSelX "b" docSelX = pwSelectorExtractor docSelX "b" docSelY ∧
    tagOf (.mk "b" (.ctext "x" .nil)) = "b" := by
  refine ⟨?_, ?_, ?_⟩
  · exact (c2_selector_extractor_laziness_amended "b" docSelX docSelX docSelY).2.1
      (by decide)
  · exact (c2_selector_extractor_laziness_amended "b" docSelX docSelX docSelY).2.2.1
  · exact (c2_selector_extractor_laziness_amended "b" docSelX docSelX docSelY).2.2.2
      [0] (.mk "b" (.ctext "x" .nil)) rfl rfl

/-- C3: on trimmed raw strings (every raw string the system's extractors
produce is already stripped), the `get_value` coercion behaves exactly as
the spec describes: a full-string decimal-with-optional-percent match
yields its unscaled number, otherwise the first embedded numeric token
yields its number, otherwise the raw string is returned unchanged; and a
missing raw value yields a missing result. -/
theorem c3_get_value_coercion (raw : String) (h : pstrip raw = raw) :
    (getValueOpt none = none ∧ getValueOpt (some raw) = some (specCoerce raw)) ∧
    getValueOpt (some "43%") = some (.num 43) ∧
    getValueOpt (some "1.25") = some (.num (5 / 4)) ∧
    getValueOpt (some "N/A") = some (.vstr "N/A") ∧
    getValueOpt (some "Rank: 7th") = some (.num 7) := by
  refine ⟨⟨rfl, ?_⟩, ?_, ?_, ?_, ?_⟩
  · show some (coerceRaw raw) = some (specCoerce raw)
    have hcore : coerceRaw raw = specCoerce raw := by
      cases hna : numAt raw.data with
      | none =>
        have hf : fullNumMatch raw = none := by
          unfold fullNumMatch
          rw [hna]
        have hsp : specFullNum raw = none := by
          unfold specFullNum
          rw [hna]
        simp only [coerceRaw, specCoerce, h, hf, hsp]
      | some mr =>
        obtain ⟨m, r⟩ := mr
        have hsearch : searchNumList raw.data = some m := by
          cases hd : raw.data with
          | nil =>
            rw [hd] at hna
            rw [show numAt ([] : List Char) = none from rfl] at hna
            exact Option.noConfusion hna
          | cons c rest =>
            rw [hd] at hna
            rw [show searchNumList (c :: rest)
                = (match numAt (c :: rest) with
                   | some (m0, _) => some m0
                   | none => searchNumList rest) from rfl]
            rw [hna]
        have hfull : ∀ m1, fullNumMatch raw = some m1 → m1 = m := by
          intro m1 hm1
          unfold fullNumMatch at hm1
          rw [hna] at hm1
          dsimp only at hm1
          split at hm1
          · cases hm1; rfl
          · cases hm1; rfl
          · exact absurd hm1 (by simp)
        have hspec : ∀ m1, specFullNum raw = some m1 → m1 = m := by
          intro m1 hm1
          unfold specFullNum at hm1
          rw [hna] at hm1
          dsimp only at hm1
          split at hm1
          · cases hm1; rfl
          · cases hm1; rfl
          · exact absurd hm1 (by simp)
        simp only [coerceRaw, specCoerce, h]
        rcases Option.eq_none_or_eq_some (fullNumMatch raw) with hf | ⟨m1, hf⟩ <;>
          rcases Option.eq_none_or_eq_some (specFullNum raw) with hsp | ⟨m2, hsp⟩
        · rw [hf, hsp]
        · rw [hf, hsp, hspec m2 hsp, hsearch]
        · rw [hf, hsp, hfull m1 hf, hsearch]
        · rw [hf, hsp, hfull m1 hf, hspec m2 hsp]
    rw [hcore]
  · show some (coerceRaw "43%") = some (.num 43)
    have h0 : coerceRaw "43%" = .num ((digitsToNat ['4', '3'] : ℚ)) := rfl
    have h1 : digitsToNat ['4', '3'] = 43 := by decide
    rw [h0, h1]
    norm_num
  · show some (coerceRaw "1.25") = some (.num (5 / 4))
    have h0 : coerceRaw "1.25"
        = .num ((digitsToNat ['1'] : ℚ)
            + (digitsToNat ['2', '5'] : ℚ) / (10 ^ (['2', '5'] : List Char).length : ℚ)) :=
      rfl
    have h1 : digitsToNat ['1'] = 1 := by decide
    have h2 : digitsToNat ['2', '5'] = 25 := by decide
    have h3 : (['2', '5'] : List Char).length = 2 := rfl
    rw [h0, h1, h2, h3]
    norm_num
  · exact rfl
  · show some (coerceRaw "Rank: 7th") = some (.num 7)
    have h0 : coerceRaw "Rank: 7th" = .num ((digitsToNat ['7'] : ℚ)) := rfl
    have h1 : digitsToNat ['7'] = 7 := by decide
    rw [h0, h1]
    norm_num

/-- Closed instance discharging C3's hypothesis at the concrete trimmed
raw string "Rank: 7th". -/
theorem c3_get_value_coercion_witness :
    pstrip "Rank: 7th" = "Rank: 7th" ∧
    ((getValueOpt none = none ∧
        getValueOpt (some "Rank: 7th") = some (specCoerce "Rank: 7th")) ∧
      getValueOpt (some "43%") = some (.num 43) ∧
      getValueOpt (some "1.25") = some (.num (5 / 4)) ∧
      getValueOpt (some "N/A") = some (.vstr "N/A") ∧
      getValueOpt (some "Rank: 7th") = some (.num 7)) :=
  ⟨by decide, c3_get_value_coercion "Rank: 7th" (by decide)⟩

/-- When its per-name identifier does not already end in "Metric", the
line-295 recomputation agrees with the line-279/280 class name. -/
theorem line295_eq_className (k : String)
    (h : strEndsWith (stripNonAlnum (pytitle k)) "Metric" = false) :
    line295Name k = className k := by
  unfold line295Name className
  by_cases he : stripNonAlnum (pytitle k) = ""
  · rw [he, if_pos rfl]
    rfl
  · rw [if_neg he, if_neg (by rw [h]; exact Bool.false_ne_true)]

/-- A key present among an attribute table's keys has a binding. -/
theorem getAttr_isSome_of_mem (attrs : List (String × MetricClass)) (k : String)
    (h : k ∈ attrs.map Prod.fst) : ∃ c, getAttr attrs k = some c := by
  induction attrs with
  | nil => exact absurd h (by simp)
  | cons kv rest ih =>
    obtain ⟨k0, v0⟩ := kv
    by_cases hk : k = k0
    · subst hk
      exact ⟨v0, by simp [getAttr, List.lookup]⟩
    · have hmem : k ∈ rest.map Prod.fst := by
        have h2 : k = k0 ∨ k ∈ rest.map Prod.fst := by simpa using h
        rcases h2 with hh | hh
        · exact absurd hh hk
        · exact hh
      obtain ⟨c, hc⟩ := ih hmem
      refine ⟨c, ?_⟩
      simp only [getAttr, List.lookup] at hc ⊢
      rw [show (k == k0) = false from beq_eq_false_iff_ne.mpr hk]
      exact hc

/-- The attribute keys produced by the discovery loop are the generated
class names, newest first. -/
theorem buildAttrs_map_fst (url : String) (discovered : List (String × Extractor)) :
    (buildAttrs url discovered).map Prod.fst
      = (discovered.map (fun kv => className kv.1)).reverse := by
  have haux : ∀ (l : List (String × Extractor)) (acc : List (String × MetricClass)),
      ((l.foldl (fun attrs kv =>
          setAttr attrs (className kv.1)
            { metric_name := kv.1, sofascore_url := some url, extractor := some kv.2 })
        acc).map Prod.fst)
        = (l.map (fun kv => className kv.1)).reverse ++ acc.map Prod.fst := by
    intro l
    induction l with
    | nil => intro acc; simp
    | cons kv rest ih =>
      intro acc
      simp only [List.foldl_cons, List.map_cons, List.reverse_cons]
      rw [ih]
      simp [setAttr]
  have := haux discovered []
  simpa [buildAttrs] using this

/-- When every requested attribute is present, the line-295 comprehension
succeeds and each produced entry is the corresponding `getattr`. -/
theorem discoveredMetricsMap_ok (attrs : List (String × MetricClass))
    (keys : List String)
    (h : ∀ k ∈ keys, ∃ c, getAttr attrs (line295Name k) = some c) :
    ∃ dm, discoveredMetricsMap attrs keys = .ok dm ∧
      ∀ k ∈ keys, List.lookup k dm = getAttr attrs (line295Name k) := by
  induction keys with
  | nil => exact ⟨[], rfl, by simp⟩
  | cons k ks ih =>
    obtain ⟨c, hc⟩ := h k (List.mem_cons_self k ks)
    obtain ⟨dm, hdm, hlook⟩ := ih (fun x hx => h x (List.mem_cons_of_mem k hx))
    refine ⟨(k, c) :: dm, ?_, ?_⟩
    · unfold discoveredMetricsMap
      rw [hc, hdm]
    · intro x hx
      by_cases hxk : x = k
      · subst hxk
        rw [hc]
        simp [List.lookup]
      · rcases List.mem_cons.mp hx with hh | hh
        · exact absurd hh hxk
        · rw [show List.lookup x ((k, c) :: dm) = List.lookup x dm by
            simp [List.lookup, beq_eq_false_iff_ne.mpr hxk]]
          exact hlook x hh

/-- C5 (counterexample): for a discovered metric name whose stripped
title-cased form already ends in "Metric", the generated identifier keeps
the suffix unduplicated (line 280), but the `_discovered_metrics`
comprehension of line 295 appends "Metric" unconditionally and `getattr`
then raises `AttributeError`, so registry construction fails and no
name-to-accessor entry exists at all. -/
theorem c5_metric_suffix_mapping_cex :
    className "Goals Metric" = "GoalsMetric" ∧
    line295Name "Goals Metric" = "GoalsMetricMetric" ∧
    metricMetaNew "u" [("Goals Metric", rsSelectorExtractor "b")]
      = .error (.attrErr "Goals Metric") :=
  ⟨rfl, rfl, rfl⟩

/-- C5 (amended): the generated identifier is exactly the spec's formula
(strip non-alphanumerics, title-case, append "Metric" if absent); and
*provided* no discovered name's stripped title-cased form already ends in
"Metric", registry construction succeeds and the name-to-accessor mapping
entry of every discovered name is the accessor class registered under
that generated identifier.  (When some stripped name already ends in
"Metric", construction instead fails with `AttributeError` — see the
counterexample.) -/
theorem c5_identifier_mapping_amended (url : String)
    (discovered : List (String × Extractor))
    (h : ∀ k ∈ discovered.map Prod.fst,
      strEndsWith (stripNonAlnum (pytitle k)) "Metric" = false) :
    (∀ n, className n = specClassName n) ∧
    ∃ r, metricMetaNew url discovered = .ok r ∧
      ∀ k ∈ discovered.map Prod.fst,
        ∃ c, getAttr r.attrs (className k) = some c ∧
          List.lookup k r.discovered_metrics = some c := by
  constructor
  · intro n
    unfold className specClassName
    by_cases he : stripNonAlnum (pytitle n) = ""
    · rw [he, if_pos rfl]
      decide
    · rw [if_neg he]
  · have hattr : ∀ k ∈ discovered.map Prod.fst,
        ∃ c, getAttr (buildAttrs url discovered) (line295Name k) = some c := by
      intro k hk
      rw [line295_eq_className k (h k hk)]
      apply getAttr_isSome_of_mem
      rw [buildAttrs_map_fst, List.mem_reverse]
      obtain ⟨kv, hkv, hfst⟩ := List.mem_map.mp hk
      exact List.mem_map.mpr ⟨kv, hkv, by rw [hfst]⟩
    obtain ⟨dm, hdm, hlook⟩ :=
      discoveredMetricsMap_ok (buildAttrs url discovered) (discovered.map Prod.fst) hattr
    refine ⟨⟨buildAttrs url discovered, dm⟩, ?_, ?_⟩
    · simp only [metricMetaNew, hdm]
    · intro k hk
      obtain ⟨c, hc⟩ := hattr k hk
      refine ⟨c, ?_, ?_⟩
      · rw [← line295_eq_className k (h k hk)]
        exact hc
      · rw [hlook k hk, hc]

/-- Closed instance discharging C5's amended hypothesis on a singleton
explicit-selector registry. -/
theorem c5_identifier_mapping_witness :
    (∀ n, className n = specClassName n) ∧
    ∃ r, metricMetaNew "u" [("Ball possession", rsSelectorExtractor "b")] = .ok r ∧
      ∀ k ∈ [("Ball possession", rsSelectorExtractor "b")].map Prod.fst,
        ∃ c, getAttr r.attrs (className k) = some c ∧
          List.lookup k r.discovered_metrics = some c :=
  c5_identifier_mapping_amended "u" [("Ball possession", rsSelectorExtractor "b")]
    (by decide)

/-- C6 (counterexample): two distinct metric names that normalise to the
same generated identifier can still crash registry construction — when
the shared stripped title-cased form already ends in "Metric", the
line-295 comprehension raises `AttributeError`, so "construction does not
crash" does not hold of every colliding pair. -/
theorem c6_collision_crash_cex :
    ("goals metric" : String) ≠ "Goals-Metric" ∧
    className "goals metric" = className "Goals-Metric" ∧
    metricMetaNew "u"
        [("goals metric", rsSelectorExtractor "b"),
         ("Goals-Metric", rsSelectorExtractor "i")]
      = .error (.attrErr "goals metric") :=
  ⟨by decide, rfl, rfl⟩

/-- C6 (amended): when two distinct metric names normalise to the same
generated identifier and neither stripped title-cased form already ends
in "Metric" (the independent line-295 pathology), registry construction
does not crash and the accessor retrievable under the shared identifier
is the later-registered metric's (last-registered wins, overwriting the
earlier accessor). -/
theorem c6_collision_last_write_wins (url n1 n2 : String) (e1 e2 : Extractor)
    (hne : n1 ≠ n2)
    (hcol : className n1 = className n2)
    (h1 : strEndsWith (stripNonAlnum (pytitle n1)) "Metric" = false)
    (h2 : strEndsWith (stripNonAlnum (pytitle n2)) "Metric" = false) :
    ∃ r, metricMetaNew url [(n1, e1), (n2, e2)] = .ok r ∧
      getAttr r.attrs (className n1)
        = some { metric_name := n2, sofascore_url := some url, extractor := some e2 } ∧
      getAttr r.attrs (className n2)
        = some { metric_name := n2, sofascore_url := some url, extractor := some e2 } := by
  have hattrs : buildAttrs url [(n1, e1), (n2, e2)]
      = [(className n2, { metric_name := n2, sofascore_url := some url, extractor := some e2 }),
         (className n1, { metric_name := n1, sofascore_url := some url, extractor := some e1 })] :=
    rfl
  have hget2 : getAttr
      [(className n2, ({ metric_name := n2, sofascore_url := some url, extractor := some e2 } : MetricClass)),
       (className n1, { metric_name := n1, sofascore_url := some url, extractor := some e1 })]
      (className n2)
      = some { metric_name := n2, sofascore_url := some url, extractor := some e2 } := by
    simp [getAttr, List.lookup]
  have hget1 : getAttr
      [(className n2, ({ metric_name := n2, sofascore_url := some url, extractor := some e2 } : MetricClass)),
       (className n1, { metric_name := n1, sofascore_url := some url, extractor := some e1 })]
      (className n1)
      = some { metric_name := n2, sofascore_url := some url, extractor := some e2 } := by
    simp [getAttr, List.lookup, hcol]
  have hdm : discoveredMetricsMap
      [(className n2, ({ metric_name := n2, sofascore_url := some url, extractor := some e2 } : MetricClass)),
       (className n1, { metric_name := n1, sofascore_url := some url, extractor := some e1 })]
      [n1, n2]
      = .ok [(n1, { metric_name := n2, sofascore_url := some url, extractor := some e2 }),
             (n2, { metric_name := n2, sofascore_url := some url, extractor := some e2 })] := by
    simp only [discoveredMetricsMap, line295_eq_className n1 h1,
      line295_eq_className n2 h2, hget1, hget2]
  refine ⟨⟨[(className n2, { metric_name := n2, sofascore_url := some url, extractor := some e2 }),
            (className n1, { metric_name := n1, sofascore_url := some url, extractor := some e1 })],
          [(n1, { metric_name := n2, sofascore_url := some url, extractor := some e2 }),
           (n2, { metric_name := n2, sofascore_url := some url, extractor := some e2 })]⟩,
        ?_, hget1, hget2⟩
  simp only [metricMetaNew]
  rw [show ([(n1, e1), (n2, e2)].map Prod.fst) = [n1, n2] from rfl]
  rw [hattrs, hdm]

/-- Closed instance discharging C6's amended hypotheses on a concrete
colliding pair ("Ball possession" / "ball-possession"). -/
theorem c6_collision_last_write_wins_witness :
    ∃ r, metricMetaNew "u"
        [("Ball possession", rsSelectorExtractor "b"),
         ("ball-possession", rsSelectorExtractor "i")] = .ok r ∧
      getAttr r.attrs (className "Ball possession")
        = some { metric_name := "ball-possession", sofascore_url := some "u",
                 extractor := some (rsSelectorExtractor "i") } ∧
      getAttr r.attrs (className "ball-possession")
        = some { metric_name := "ball-possession", sofascore_url := some "u",
                 extractor := some (rsSelectorExtractor "i") } :=
  c6_collision_last_write_wins "u" "Ball possession" "ball-possession"
    (rsSelectorExtractor "b") (rsSelectorExtractor "i")
    (by decide) rfl (by decide) (by decide)

/-- A found token is a non-empty string. -/
theorem searchTok_some_ne_empty (s : String) (t : String)
    (h : searchTok s = some t) : t ≠ "" := by
  unfold searchTok at h
  cases hx : searchTokList s.data with
  | none => rw [hx] at h; exact absurd h (by simp)
  | some l =>
    rw [hx] at h
    have hl := searchTokList_some_ne_nil s.data l hx
    have ht : t = ⟨l⟩ := by
      cases h
      rfl
    subst ht
    intro heq
    exact hl (congrArg String.data heq)

/-- A falsy token-search result is `none`. -/
theorem searchTok_none_of_falsy (s : String)
    (h : truthyO (searchTok s) = false) : searchTok s = none := by
  cases hx : searchTok s with
  | none => rfl
  | some t =>
    rw [hx] at h
    have := searchTok_some_ne_empty s t hx
    rw [show truthyO (some t) = (t != "") from rfl] at h
    exact absurd (bne_iff_ne.mpr this) (by rw [h]; exact Bool.false_ne_true)

/-- If the token search fails on a concatenation, it fails on the left
part alone. -/
theorem searchTok_none_of_append (a b : String)
    (h : searchTok (a ++ b) = none) : searchTok a = none := by
  unfold searchTok at h ⊢
  have h1 : searchTokList (a ++ b).data = none := by
    cases hx : searchTokList (a ++ b).data with
    | none => rfl
    | some t => rw [hx] at h; exact absurd h (by simp)
  rw [String.data_append] at h1
  have h2 := (searchTokList_none_iff _).mp h1
  have h3 : searchTokList a.data = none :=
    (searchTokList_none_iff _).mpr (fun c hc => h2 c (List.mem_append_left _ hc))
  rw [h3]
  rfl

/-- Discovery resolution, sibling step: a next sibling with truthy text
wins outright (lines 93-95). -/
theorem discoverValue_sib_truthy (root : HNode) (p : List Nat) (sib : HNode)
    (hsib : findNextSiblingNode root p = some sib)
    (hne : getTextStrip sib ≠ "") :
    discoverValue root p = some (getTextStrip sib) := by
  have hb : (getTextStrip sib != "") = true := bne_iff_ne.mpr hne
  simp only [discoverValue, hsib, Option.map_some', truthyO, hb, if_true]

/-- Discovery resolution, token step: with no next sibling and no
consultable parent sibling, resolution is the numeric-token search over
the label's text joined with the parent's text (lines 102-105). -/
theorem discoverValue_token (root : HNode) (p : List Nat)
    (hsib : findNextSiblingNode root p = none)
    (hpp : parentNodeOf root p = none ∨ parentSiblingNode root p = none) :
    discoverValue root p =
      searchTok ((((nodeAtN root p).map getTextSep).getD "") ++ " "
        ++ (((parentNodeOf root p).map getTextSep).getD "")) := by
  rcases hpp with hp | hp
  · simp [discoverValue, hsib, hp, truthyO]
  · cases hpar : parentNodeOf root p with
    | none => simp [discoverValue, hsib, hpar, truthyO]
    | some par => simp [discoverValue, hsib, hpar, hp, truthyO]

/-- Discovery resolution, parent-sibling step: with no truthy sibling
text, a parent's next sibling with truthy text wins (lines 97-100). -/
theorem discoverValue_psib_truthy (root : HNode) (p : List Nat)
    (par nx : HNode)
    (hsib : findNextSiblingNode root p = none)
    (hpar : parentNodeOf root p = some par)
    (hpsib : parentSiblingNode root p = some nx)
    (hne : getTextStrip nx ≠ "") :
    discoverValue root p = some (getTextStrip nx) := by
  have hb : (getTextStrip nx != "") = true := bne_iff_ne.mpr hne
  simp only [discoverValue, hsib, hpar, hpsib, Option.map_none', truthyO, hb,
    Bool.false_eq_true, if_false, if_true]

/-- Lazy re-resolution, sibling step (lines 116-118): an existing next
sibling's text is returned unconditionally, even when empty. -/
theorem lazyExtractor_sib (rule : String → Bool) (root : HNode) (p : List Nat)
    (sib : HNode)
    (hfind : findN (labelPred rule) root = some p)
    (hsib : findNextSiblingNode root p = some sib) :
    lazyExtractor rule root = PyRes.pstr (getTextStrip sib) := by
  simp only [lazyExtractor, hfind, hsib]

/-- Lazy re-resolution, parent-sibling step (lines 119-122): an existing
parent's next sibling's text is returned unconditionally. -/
theorem lazyExtractor_psib (rule : String → Bool) (root : HNode) (p : List Nat)
    (par nx : HNode)
    (hfind : findN (labelPred rule) root = some p)
    (hsib : findNextSiblingNode root p = none)
    (hpar : parentNodeOf root p = some par)
    (hpsib : parentSiblingNode root p = some nx) :
    lazyExtractor rule root = PyRes.pstr (getTextStrip nx) := by
  simp only [lazyExtractor, hfind, hsib, hpar, hpsib]

/-- Lazy re-resolution, token step (lines 123-124): with no structural
hit, the numeric-token search runs over the label node's *own* text
only. -/
theorem lazyExtractor_token (rule : String → Bool) (root : HNode) (p : List Nat)
    (hfind : findN (labelPred rule) root = some p)
    (hsib : findNextSiblingNode root p = none)
    (hpp : parentNodeOf root p = none ∨ parentSiblingNode root p = none) :
    lazyExtractor rule root
      = (match searchTok (((nodeAtN root p).map getTextSep).getD "") with
         | some tok => PyRes.pstr tok
         | none => PyRes.pnone) := by
  rcases hpp with hp | hp
  · simp only [lazyExtractor, hfind, hsib, hp]
  · cases hpar : parentNodeOf root p with
    | none => simp only [lazyExtractor, hfind, hsib, hpar]
    | some par => simp only [lazyExtractor, hfind, hsib, hpar, hp]

/-- C4 (counterexample): on `docCSparent` the "Clean sheets" label node
(path `[0]`) has no next sibling and no parent-sibling; the discovery
pass resolves "9" through the token search over the label's text joined
with the parent's text, but the lazy extractor's re-resolution — which
the claim says follows the same chain — searches the label node's *own*
text only and yields no value. -/
theorem c4_lazy_fallback_ignores_parent_cex :
    findN (labelPred reCleanSheets) docCSparent = some [0] ∧
    findNextSiblingNode docCSparent [0] = none ∧
    parentSiblingNode docCSparent [0] = none ∧
    discoverValue docCSparent [0] = some "9" ∧
    searchTok ((((nodeAtN docCSparent [0]).map getTextSep).getD "") ++ " "
      ++ (((parentNodeOf docCSparent [0]).map getTextSep).getD "")) = some "9" ∧
    lazyExtractor reCleanSheets docCSparent = PyRes.pnone :=
  ⟨rfl, rfl, rfl, rfl, rfl, rfl⟩

/-- C4 (amended): the discovery-time pass follows the claimed ordered
fallback chain — truthy sibling text first (so "61%" beats the
parent-sibling's "55%"), then truthy parent-sibling text, then the first
numeric token of the label's own text concatenated with its parent's
text (so "Clean sheets 9" resolves to "9"); the lazy extractor's
re-resolution differs in the last step: it searches the label node's own
text only (and its structural steps return a present sibling's text even
when empty). -/
theorem c4_value_resolution_chain_amended :
    (∀ root p sib, findNextSiblingNode root p = some sib →
      getTextStrip sib ≠ "" →
      discoverValue root p = some (getTextStrip sib)) ∧
    (∀ root p par nx, findNextSiblingNode root p = none →
      parentNodeOf root p = some par →
      parentSiblingNode root p = some nx →
      getTextStrip nx ≠ "" →
      discoverValue root p = some (getTextStrip nx)) ∧
    (∀ root p, findNextSiblingNode root p = none →
      parentSiblingNode root p = none →
      discoverValue root p =
        searchTok ((((nodeAtN root p).map getTextSep).getD "") ++ " "
          ++ (((parentNodeOf root p).map getTextSep).getD ""))) ∧
    (∀ rule root p, findN (labelPred rule) root = some p →
      findNextSiblingNode root p = none →
      parentSiblingNode root p = none →
      lazyExtractor rule root
        = (match searchTok (((nodeAtN root p).map getTextSep).getD "") with
           | some tok => PyRes.pstr tok
           | none => PyRes.pnone)) := by
  refine ⟨?_, ?_, ?_, ?_⟩
  · intro root p sib hsib hne
    exact discoverValue_sib_truthy root p sib hsib hne
  · intro root p par nx hsib hpar hpsib hne
    exact discoverValue_psib_truthy root p par nx hsib hpar hpsib hne
  · intro root p hsib hpsib
    exact discoverValue_token root p hsib (Or.inr hpsib)
  · intro rule root p hfind hsib hpsib
    exact lazyExtractor_token rule root p hfind hsib (Or.inr hpsib)

/-- Closed instance discharging C4's amended hypotheses: the 61%-over-55%
precedence on `doc6155`, the "Clean sheets 9" token fallback on `docCS9`,
and the own-text-only lazy fallback on `docCSparent`. -/
theorem c4_value_resolution_chain_witness :
    discoverValue doc6155 [0, 0] = some "61%" ∧
    discoverValue docCS9 [0] = some "9" ∧
    lazyExtractor reCleanSheets docCSparent = PyRes.pnone := by
  refine ⟨?_, ?_, ?_⟩
  · exact c4_value_resolution_chain_amended.1 doc6155 [0, 0]
      (.mk "div" (.ctext "61%" .nil)) rfl (by decide)
  · exact (c4_value_resolution_chain_amended.2.2.1 docCS9 [0] rfl rfl).trans rfl
  · exact (c4_value_resolution_chain_amended.2.2.2 reCleanSheets docCSparent [0]
      rfl rfl rfl).trans rfl

/-- A produced discovery entry carries the catalog entry's own name. -/
theorem discoverEntry_key (soup : HNode) (c : String × (String → Bool))
    (x : String × Extractor) (h : discoverEntry soup c = some x) :
    x.1 = c.1 := by
  unfold discoverEntry at h
  cases hf : findN (labelPred c.2) soup with
  | none => rw [hf] at h; exact absurd h (by simp)
  | some p =>
    rw [hf] at h
    dsimp only at h
    split at h
    · cases h; rfl
    · cases h; rfl

/-- C9 (counterexample): on a page whose recognisable "Ball possession"
label has a present but empty-text next sibling, discovery resolves
nothing and produces the lazy accessor — but its `getValue` against the
same document returns the empty *string* (the sibling's text), not "no
value" as the claim states. -/
theorem c9_empty_sibling_cex :
    findN (labelPred reBallPossession) docBPemptySib = some [0] ∧
    truthyO (discoverValue docBPemptySib [0]) = false ∧
    find_metrics_auto docBPemptySib
      = [("Ball possession", lazyExtractor reBallPossession)] ∧
    get_value ⟨"Ball possession", some "u", some (lazyExtractor reBallPossession)⟩
        (fetchConst docBPemptySib)
      = .ok (some (GetVal.vstr "")) ∧
    (.ok (some (GetVal.vstr "")) : Except PyErr (Option GetVal)) ≠ .ok none := by
  refine ⟨rfl, rfl, rfl, rfl, ?_⟩
  intro h
  have h2 : (some (GetVal.vstr "") : Option GetVal) = none := by
    injection h
  exact Option.noConfusion h2

/-- C9 (amended): in auto-discovery mode, a category whose rule no node
satisfies is simply omitted (no entry, no error); and when a label node
is found but no value resolves, a lazy-extractor accessor is still
produced whose `getValue` — re-evaluated against the same document —
never raises and returns no value, except that it returns the empty
string when the label node (or its parent) has a next-sibling element
whose stripped text is empty. -/
theorem c9_auto_discovery_amended (soup : HNode) (url : String) (hurl : url ≠ "") :
    (∀ c ∈ candidates, findN (labelPred c.2) soup = none →
      ∀ e, (c.1, e) ∉ find_metrics_auto soup) ∧
    (∀ c ∈ candidates, ∀ p, findN (labelPred c.2) soup = some p →
      truthyO (discoverValue soup p) = false →
      (c.1, lazyExtractor c.2) ∈ find_metrics_auto soup ∧
      ∃ v, get_value ⟨c.1, some url, some (lazyExtractor c.2)⟩ (fetchConst soup)
            = .ok v ∧
        (v = none ∨ v = some (GetVal.vstr ""))) := by
  constructor
  · intro c hc hnone e hmem
    obtain ⟨c', hc', hfc'⟩ := List.mem_filterMap.mp hmem
    have hkey : c'.1 = c.1 := (discoverEntry_key soup c' (c.1, e) hfc').symm
    have hnodup : (candidates.map Prod.fst).Nodup := by decide
    have hcc : c' = c := List.inj_on_of_nodup_map hnodup hc' hc hkey
    subst hcc
    unfold discoverEntry at hfc'
    rw [hnone] at hfc'
    exact absurd hfc' (by simp)
  · intro c hc p hfind hval
    have hfr : fetch_raw ⟨c.1, some url, some (lazyExtractor c.2)⟩ (fetchConst soup)
        = .ok (lazyExtractor c.2 soup) := by
      simp only [fetch_raw, fetchConst]
      rw [if_neg hurl]
    constructor
    · apply List.mem_filterMap.mpr
      refine ⟨c, hc, ?_⟩
      unfold discoverEntry
      rw [hfind]
      dsimp only
      rw [if_neg (by rw [hval]; exact Bool.false_ne_true)]
    · have token_case :
          findNextSiblingNode soup p = none →
          (parentNodeOf soup p = none ∨ parentSiblingNode soup p = none) →
          ∃ v, get_value ⟨c.1, some url, some (lazyExtractor c.2)⟩ (fetchConst soup)
              = .ok v ∧ (v = none ∨ v = some (GetVal.vstr "")) := by
        intro hsib hpp
        have hdv := discoverValue_token soup p hsib hpp
        rw [hdv] at hval
        have hnone := searchTok_none_of_falsy _ hval
        have h1 : searchTok ((((nodeAtN soup p).map getTextSep).getD "") ++ " ")
            = none := searchTok_none_of_append _ _ hnone
        have h2 : searchTok (((nodeAtN soup p).map getTextSep).getD "") = none :=
          searchTok_none_of_append _ _ h1
        have hlz : lazyExtractor c.2 soup = PyRes.pnone := by
          rw [lazyExtractor_token c.2 soup p hfind hsib hpp, h2]
        refine ⟨none, ?_, Or.inl rfl⟩
        simp only [get_value, hfr, hlz]
      cases hsib : findNextSiblingNode soup p with
      | some sib =>
        have hstrip : getTextStrip sib = "" := by
          by_contra hne
          rw [discoverValue_sib_truthy soup p sib hsib hne] at hval
          rw [show truthyO (some (getTextStrip sib)) = (getTextStrip sib != "")
            from rfl] at hval
          exact absurd (bne_iff_ne.mpr hne) (by rw [hval]; exact Bool.false_ne_true)
        have hlz : lazyExtractor c.2 soup = PyRes.pstr "" := by
          rw [lazyExtractor_sib c.2 soup p sib hfind hsib, hstrip]
        refine ⟨some (GetVal.vstr ""), ?_, Or.inr rfl⟩
        simp only [get_value, hfr, hlz]
        rfl
      | none =>
        cases hpar : parentNodeOf soup p with
        | none => exact token_case hsib (Or.inl hpar)
        | some par =>
          cases hpsib : parentSiblingNode soup p with
          | none => exact token_case hsib (Or.inr hpsib)
          | some nx =>
            have hstrip : getTextStrip nx = "" := by
              by_contra hne
              rw [discoverValue_psib_truthy soup p par nx hsib hpar hpsib hne] at hval
              rw [show truthyO (some (getTextStrip nx)) = (getTextStrip nx != "")
                from rfl] at hval
              exact absurd (bne_iff_ne.mpr hne) (by rw [hval]; exact Bool.false_ne_true)
            have hlz : lazyExtractor c.2 soup = PyRes.pstr "" := by
              rw [lazyExtractor_psib c.2 soup p par nx hfind hsib hpar hpsib, hstrip]
            refine ⟨some (GetVal.vstr ""), ?_, Or.inr rfl⟩
            simp only [get_value, hfr, hlz]
            rfl

/-- Closed instance discharging C9's amended hypotheses: on a page with
only the "Ball possession" label, the accessor is produced and its
`getValue` returns no value; and the unmatched "Goals" category is
omitted. -/
theorem c9_auto_discovery_witness :
    (("Ball possession", lazyExtractor reBallPossession)
        ∈ find_metrics_auto docBPonly ∧
      ∃ v, get_value
          ⟨"Ball possession", some "u", some (lazyExtractor reBallPossession)⟩
          (fetchConst docBPonly) = .ok v ∧
        (v = none ∨ v = some (GetVal.vstr ""))) ∧
    ∀ e, ("Goals", e) ∉ find_metrics_auto docBPonly := by
  constructor
  · exact (c9_auto_discovery_amended docBPonly "u" (by decide)).2
      ("Ball possession", reBallPossession) (List.mem_cons_self _ _) [0] rfl rfl
  · exact (c9_auto_discovery_amended docBPonly "u" (by decide)).1
      ("Goals", reGoals) (by simp [candidates]) rfl
